import Mathlib

/-!
Verification of the script-to-audio synthesis pipeline of `src/app.py`
(podcast generator).

The pipeline under study is the pair of functions

  * `generate_audio_segment(text, voice, index)` (app.py lines 71-84), and
  * `create_podcast_audio(script_json, language)` (app.py lines 86-142),

shallowly embedded below.  The external collaborators — the EdgeTTS
backend, the filesystem, and pydub's mp3 decoder — are modelled as
function parameters:

  * `ttsOk text voice : Bool` tells whether `edge_tts.Communicate(text,
    voice).save(output_file)` succeeds for this text/voice pair; on
    failure the Python code catches the exception and returns `None`.
  * `from_mp3 : String → Option Track` models `AudioSegment.from_mp3`;
    `none` models the decoder raising an exception, which the Python
    code does NOT catch inside `create_podcast_audio`, so a `none`
    decode aborts the whole merge (the merge returns `none`, i.e. the
    exception propagates to the caller).

Audio is modelled abstractly: a pydub `AudioSegment` is a `Track`, a
list of clips, where a clip is either an audio payload (tagged with the
turn index it was synthesized from, plus a duration in milliseconds) or
a span of silence.  `+` on pydub segments is concatenation, i.e. list
append; `AudioSegment.silent(duration=350)` is a single 350 ms silence
clip; `AudioSegment.empty()` is the empty list.

Concurrency: `asyncio.gather(*tasks)` awaits all tasks and returns
their results positionally, in task-list order, regardless of the
order in which the tasks happen to complete.  We model a completion
schedule explicitly: `runGather tasks sched` fills an index-addressed
slot table, writing slot `i` when task `i` completes, in the order
given by `sched` (any permutation of the task indices), and returns the
slot table.  The order-preservation theorems quantify over every
permutation `sched`.
-/

namespace Podcast

/-- One dialogue turn of the script: `{"speaker": ..., "text": ...}`
(the JSON objects produced by `generate_podcast_script`). -/
structure DialogueTurn where
  speaker : String
  text : String
deriving Repr, DecidableEq

/-- One clip of abstract audio: either the synthesized audio of turn
`id` (with duration `dur` in ms) or `dur` ms of silence. -/
inductive Clip where
  | audio (id : Nat) (dur : Nat)
  | silence (dur : Nat)
deriving Repr, DecidableEq

/-- A pydub `AudioSegment`, abstractly: a sequence of clips. -/
abbrev Track := List Clip

/-- Duration in milliseconds of one clip. -/
def Clip.dur : Clip → Nat
  | .audio _ d => d
  | .silence d => d

/-- Total duration of a track: the sum of its clips' durations
(pydub: `len(segment)` in ms). -/
def Track.duration (t : Track) : Nat := (t.map Clip.dur).sum

/-- `AudioSegment.empty()`. -/
def AudioSegment.empty : Track := []

/-- `AudioSegment.silent(duration=d)`. -/
def AudioSegment.silent (duration : Nat) : Track := [Clip.silence duration]

/-- `os.path.join(temp_dir, f"seg_{index}.mp3")` with the default
`temp_dir="temp_audio"` (app.py line 76). -/
def segPath (index : Nat) : String := "temp_audio/seg_" ++ toString index ++ ".mp3"

/-- Embedding of `generate_audio_segment` (app.py lines 71-84): build
the output path, attempt the EdgeTTS synthesis, return the path on
success; any backend exception is caught and `None` is returned.  The
backend call is modelled by `ttsOk` (see module docstring). -/
def generate_audio_segment (ttsOk : String → String → Bool)
    (text voice : String) (index : Nat) : Option String :=
  let output_file := segPath index
  if ttsOk text voice then some output_file else none

/-- Voice table of `create_podcast_audio` (app.py lines 90-99):
`(voice_1, voice_2)` chosen by language; any language other than
"Hindi"/"Hinglish" falls into the `else` (English) branch. -/
def hostVoices (language : String) : String × String :=
  if language = "Hindi" then ("hi-IN-MadhurNeural", "hi-IN-SwaraNeural")
  else if language = "Hinglish" then ("en-IN-PrabhatNeural", "en-IN-NeerjaNeural")
  else ("en-US-BrianMultilingualNeural", "en-US-AriaNeural")

/-- Python's `pat in s` on strings: case-sensitive substring
containment. -/
def strContains (s pat : String) : Bool := decide (pat.toList <:+: s.toList)

/-- Speaker classification of app.py lines 113-116:
`if "Host 1" in speaker or "Alex" in speaker or "Rahul" in speaker`. -/
def isHost1 (speaker : String) : Bool :=
  strContains speaker "Host 1" || strContains speaker "Alex" || strContains speaker "Rahul"

/-- The voice chosen for one turn (app.py lines 113-116): `voice_1` for
a primary-host label, `voice_2` for everything else. -/
def resolveVoice (language speaker : String) : String :=
  if isHost1 speaker then (hostVoices language).1 else (hostVoices language).2

/-- The task list built by the `for i, line in enumerate(script_json)`
loop (app.py lines 107-118), as a recursion carrying the running index
`i`.  Task `i` is `generate_audio_segment(text_i, voice_i, i)`. -/
def synthTasksFrom (ttsOk : String → String → Bool) (language : String) :
    Nat → List DialogueTurn → List (Option String)
  | _, [] => []
  | i, line :: rest =>
      generate_audio_segment ttsOk line.text (resolveVoice language line.speaker) i ::
        synthTasksFrom ttsOk language (i + 1) rest

/-- The full task list, indices starting at 0. -/
def synthTasks (ttsOk : String → String → Bool)
    (script : List DialogueTurn) (language : String) : List (Option String) :=
  synthTasksFrom ttsOk language 0 script

/-- Semantics of `files = await asyncio.gather(*tasks)` under an
explicit completion schedule: slot `i` of the result receives task
`i`'s value when that task completes; `sched` lists the task indices in
completion order.  `gather` returns the slots positionally, so the
result is schedule-independent (proved below). -/
def runGather (tasks : List (Option String)) (sched : List Nat) : List (Option String) :=
  sched.foldl (fun slots i => slots.set i (tasks.getD i none))
    (List.replicate tasks.length none)

/-- The merge loop of app.py lines 125-132, with the exception
behaviour of `AudioSegment.from_mp3` made explicit: for each valid
file, decode it (`none` = the decoder raised, which aborts the whole
merge since the loop body is not guarded by try/except), then append
the segment and a 350 ms silence to the accumulator. -/
def mergeLoop (from_mp3 : String → Option Track) :
    Track → List String → Option Track
  | combined, [] => some combined
  | combined, file :: rest =>
      match from_mp3 file with
      | none => none
      | some segment =>
          mergeLoop from_mp3 (combined ++ segment ++ AudioSegment.silent 350) rest

/-- `combined = AudioSegment.empty(); valid_files = [f for f in files
if f is not None]; for file in valid_files: ...` (app.py lines
125-132). -/
def mergeAudio (from_mp3 : String → Option Track)
    (files : List (Option String)) : Option Track :=
  mergeLoop from_mp3 AudioSegment.empty (files.filterMap id)

/-- Embedding of `create_podcast_audio` (app.py lines 86-142): build
the per-turn task list, gather all synthesis results (under completion
schedule `sched`), then merge the valid files.  `none` models an mp3
decoding exception escaping the function. -/
def create_podcast_audio (ttsOk : String → String → Bool)
    (from_mp3 : String → Option Track) (sched : List Nat)
    (script_json : List DialogueTurn) (language : String) : Option Track :=
  mergeAudio from_mp3 (runGather (synthTasks ttsOk script_json language) sched)

/-- Observation: the turn indices of the audio clips of a track, in
track order (silence clips carry no turn). -/
def trackIds (t : Track) : List Nat :=
  t.filterMap fun c => match c with | .audio i _ => some i | .silence _ => none

/-- Observation: the positions of the present (non-`none`) entries of a
result list, in increasing order, starting at position `k`. -/
def presentIdxFrom : Nat → List (Option String) → List Nat
  | _, [] => []
  | k, none :: rest => presentIdxFrom (k + 1) rest
  | k, some _ :: rest => k :: presentIdxFrom (k + 1) rest

/-- Positions of the present entries of a result list. -/
def presentIdx (files : List (Option String)) : List Nat := presentIdxFrom 0 files

/-! Concrete scenario used to instantiate the theorems: a two-turn
script, a backend that always succeeds (`wTtsAll`) or fails exactly on
the second turn's text (`wTtsFail`), and a decoder mapping each
segment file to its turn's audio (800 ms and 600 ms). -/

/-- A two-turn script: primary host then secondary host. -/
def wScript : List DialogueTurn := [⟨"Host 1", "Hi there"⟩, ⟨"Sarah", "Hello!"⟩]

/-- Backend that succeeds on every request. -/
def wTtsAll : String → String → Bool := fun _ _ => true

/-- Backend that fails exactly on the second turn's text. -/
def wTtsFail : String → String → Bool := fun text _ => !(text == "Hello!")

/-- Durations of the two synthesized segments. -/
def wDur : Nat → Nat := fun i => if i = 0 then 800 else 600

/-- Decoder: each written segment file holds its turn's audio. -/
def wDecode : String → Option Track := fun s =>
  if s = segPath 0 then some [Clip.audio 0 800]
  else if s = segPath 1 then some [Clip.audio 1 600]
  else none

end Podcast

namespace Podcast

/-! ### Helper lemmas about the gather slot table -/

lemma foldlSet_length (tasks : List (Option String)) (sched : List Nat) :
    ∀ slots : List (Option String),
      (sched.foldl (fun s j => s.set j (tasks.getD j none)) slots).length = slots.length := by
  induction sched with
  | nil => intro slots; rfl
  | cons j rest ih =>
      intro slots
      rw [List.foldl_cons, ih, List.length_set]

lemma foldlSet_getElem?_not_mem (tasks : List (Option String)) (sched : List Nat) (i : Nat)
    (h : i ∉ sched) :
    ∀ slots : List (Option String),
      (sched.foldl (fun s j => s.set j (tasks.getD j none)) slots)[i]? = slots[i]? := by
  induction sched with
  | nil => intro slots; rfl
  | cons j rest ih =>
      intro slots
      have hji : i ≠ j := fun hij => h (hij ▸ List.mem_cons_self j rest)
      rw [List.foldl_cons, ih (fun hmem => h (List.mem_cons_of_mem j hmem)),
        List.getElem?_set_ne (Ne.symm hji)]

lemma foldlSet_getElem?_mem (tasks : List (Option String)) (sched : List Nat) (i : Nat)
    (h : i ∈ sched) :
    ∀ slots : List (Option String), i < slots.length →
      (sched.foldl (fun s j => s.set j (tasks.getD j none)) slots)[i]? =
        some (tasks.getD i none) := by
  induction sched with
  | nil => exact absurd h (List.not_mem_nil i)
  | cons j rest ih =>
      intro slots hi
      rw [List.foldl_cons]
      by_cases hmem : i ∈ rest
      · exact ih hmem _ (by rw [List.length_set]; exact hi)
      · have hij : i = j := by
          rcases List.mem_cons.mp h with h1 | h2
          · exact h1
          · exact absurd h2 hmem
        subst hij
        rw [foldlSet_getElem?_not_mem tasks rest i hmem, List.getElem?_set_self hi]

/-- `asyncio.gather` is schedule-independent: under any completion
order that completes every task exactly once (any permutation of the
task indices), the gathered result list is the task list itself —
results are positional, never completion-ordered. -/
lemma runGather_perm (tasks : List (Option String)) (sched : List Nat)
    (hperm : sched.Perm (List.range tasks.length)) :
    runGather tasks sched = tasks := by
  apply List.ext_getElem?
  intro i
  by_cases hi : i < tasks.length
  · have hmem : i ∈ sched := by
      rw [hperm.mem_iff]; exact List.mem_range.mpr hi
    rw [runGather, foldlSet_getElem?_mem tasks sched i hmem _
      (by rw [List.length_replicate]; exact hi)]
    rw [List.getD_eq_getElem?_getD, List.getElem?_eq_getElem hi]
    rfl
  · have h1 : (runGather tasks sched)[i]? = none := by
      apply List.getElem?_eq_none
      rw [runGather, foldlSet_length, List.length_replicate]
      omega
    have h2 : tasks[i]? = none := List.getElem?_eq_none (by omega)
    rw [h1, h2]

lemma foldlSet_all_none (tasks : List (Option String))
    (hwrite : ∀ j : Nat, tasks.getD j none = none) (sched : List Nat) :
    ∀ slots : List (Option String), (∀ r ∈ slots, r = none) →
      ∀ r ∈ sched.foldl (fun s j => s.set j (tasks.getD j none)) slots, r = none := by
  induction sched with
  | nil => intro slots hs r hr; exact hs r hr
  | cons j rest ih =>
      intro slots hs
      rw [List.foldl_cons]
      apply ih
      intro r hr
      rcases List.mem_or_eq_of_mem_set hr with h1 | h2
      · exact hs r h1
      · rw [h2, hwrite]

lemma runGather_all_none (tasks : List (Option String)) (sched : List Nat)
    (h : ∀ r ∈ tasks, r = none) :
    ∀ r ∈ runGather tasks sched, r = none := by
  have hwrite : ∀ j : Nat, tasks.getD j none = none := by
    intro j
    rw [List.getD_eq_getElem?_getD]
    cases hj : tasks[j]? with
    | none => rfl
    | some v => exact h v (List.getElem?_mem hj)
  exact foldlSet_all_none tasks hwrite sched _
    (fun r hr => List.eq_of_mem_replicate hr)

end Podcast

namespace Podcast

/-! ### Helper lemmas about the synthesis task list -/

lemma synthTasksFrom_length (ttsOk : String → String → Bool) (language : String)
    (l : List DialogueTurn) : ∀ k : Nat, (synthTasksFrom ttsOk language k l).length = l.length := by
  induction l with
  | nil => intro k; rfl
  | cons line rest ih => intro k; rw [synthTasksFrom, List.length_cons, List.length_cons, ih]

lemma synthTasks_length (ttsOk : String → String → Bool) (script : List DialogueTurn)
    (language : String) : (synthTasks ttsOk script language).length = script.length :=
  synthTasksFrom_length ttsOk language script 0

lemma synthTasksFrom_getElem? (ttsOk : String → String → Bool) (language : String)
    (l : List DialogueTurn) : ∀ k j : Nat,
      (synthTasksFrom ttsOk language k l)[j]? =
        (l[j]?).map fun line =>
          generate_audio_segment ttsOk line.text (resolveVoice language line.speaker) (k + j) := by
  induction l with
  | nil => intro k j; rfl
  | cons line rest ih =>
      intro k j
      cases j with
      | zero => simp [synthTasksFrom]
      | succ j =>
          rw [synthTasksFrom, List.getElem?_cons_succ, List.getElem?_cons_succ, ih (k + 1) j]
          have : k + 1 + j = k + (j + 1) := by omega
          rw [this]

lemma synthTasks_getElem? (ttsOk : String → String → Bool) (script : List DialogueTurn)
    (language : String) (j : Nat) :
    (synthTasks ttsOk script language)[j]? =
      (script[j]?).map fun line =>
        generate_audio_segment ttsOk line.text (resolveVoice language line.speaker) j := by
  have h := synthTasksFrom_getElem? ttsOk language script 0 j
  simpa using h

lemma synthTasksFrom_some_eq_segPath (ttsOk : String → String → Bool) (language : String)
    (l : List DialogueTurn) : ∀ k j : Nat, ∀ s : String,
      (synthTasksFrom ttsOk language k l)[j]? = some (some s) → s = segPath (k + j) := by
  induction l with
  | nil => intro k j s h; simp [synthTasksFrom] at h
  | cons line rest ih =>
      intro k j s h
      cases j with
      | zero =>
          rw [synthTasksFrom, List.getElem?_cons_zero, Option.some.injEq] at h
          simp only [generate_audio_segment] at h
          split at h
          · rw [Nat.add_zero]
            exact (Option.some.inj h).symm
          · exact absurd h (by simp)
      | succ j =>
          rw [synthTasksFrom, List.getElem?_cons_succ] at h
          have := ih (k + 1) j s h
          rw [this]
          have : k + 1 + j = k + (j + 1) := by omega
          rw [this]

/-! ### Helper lemmas about present indices and valid files -/

lemma presentIdxFrom_mem (files : List (Option String)) :
    ∀ k i : Nat, i ∈ presentIdxFrom k files → k ≤ i ∧ i < k + files.length := by
  induction files with
  | nil => intro k i h; simp [presentIdxFrom] at h
  | cons f rest ih =>
      intro k i h
      cases f with
      | none =>
          rw [presentIdxFrom] at h
          have := ih (k + 1) i h
          constructor <;> [omega; (rw [List.length_cons]; omega)]
      | some s =>
          rw [presentIdxFrom, List.mem_cons] at h
          rcases h with h1 | h2
          · subst h1; constructor <;> [omega; (rw [List.length_cons]; omega)]
          · have := ih (k + 1) i h2
            constructor <;> [omega; (rw [List.length_cons]; omega)]

/-- If every present entry at absolute position `k + j` is the path of
segment `k + j`, the valid-file list is exactly the present positions'
paths, in position order. -/
lemma filterMap_id_eq_presentIdxFrom_map (files : List (Option String)) :
    ∀ k : Nat, (∀ j : Nat, ∀ s : String, files[j]? = some (some s) → s = segPath (k + j)) →
      files.filterMap id = (presentIdxFrom k files).map segPath := by
  induction files with
  | nil => intro k _; rfl
  | cons f rest ih =>
      intro k h
      cases f with
      | none =>
          rw [List.filterMap_cons_none rfl, presentIdxFrom]
          apply ih (k + 1)
          intro j s hj
          have := h (j + 1) s (by rw [List.getElem?_cons_succ]; exact hj)
          rw [this]
          have : k + (j + 1) = k + 1 + j := by omega
          rw [this]
      | some s =>
          have hs : s = segPath k := by
            have := h 0 s (by rw [List.getElem?_cons_zero])
            simpa using this
          rw [show List.filterMap id (some s :: rest) = s :: List.filterMap id rest from rfl,
            presentIdxFrom, List.map_cons, hs]
          congr 1
          apply ih (k + 1)
          intro j s' hj
          have := h (j + 1) s' (by rw [List.getElem?_cons_succ]; exact hj)
          rw [this]
          have : k + (j + 1) = k + 1 + j := by omega
          rw [this]

lemma filterMap_id_all_none (files : List (Option String))
    (h : ∀ r ∈ files, r = none) : files.filterMap id = [] := by
  induction files with
  | nil => rfl
  | cons f rest ih =>
      have hf : f = none := h f (List.mem_cons_self f rest)
      subst hf
      rw [List.filterMap_cons_none rfl]
      exact ih fun r hr => h r (List.mem_cons_of_mem none hr)

end Podcast

namespace Podcast

/-! ### Helper lemmas about the merge loop -/

/-- If every valid file decodes, the merge loop succeeds and the result
is the accumulator followed by, for each file in order, its decoded
segment and one 350 ms silence. -/
lemma mergeLoop_eq_some (from_mp3 : String → Option Track) (l : List String) :
    ∀ acc : Track, (∀ f ∈ l, (from_mp3 f).isSome) →
      mergeLoop from_mp3 acc l =
        some (acc ++ (l.map fun f => (from_mp3 f).getD [] ++ AudioSegment.silent 350).flatten) := by
  induction l with
  | nil => intro acc _; simp [mergeLoop]
  | cons f rest ih =>
      intro acc h
      have hf : (from_mp3 f).isSome := h f (List.mem_cons_self f rest)
      rcases Option.isSome_iff_exists.mp hf with ⟨seg, hseg⟩
      rw [mergeLoop, hseg]
      show mergeLoop from_mp3 (acc ++ seg ++ AudioSegment.silent 350) rest = _
      rw [ih _ fun g hg => h g (List.mem_cons_of_mem f hg)]
      rw [List.map_cons, List.flatten_cons, hseg]
      simp [List.append_assoc]

/-- Conversely, a successful merge forces every decode to have
succeeded, and determines the track shape. -/
lemma mergeLoop_some_inv (from_mp3 : String → Option Track) (l : List String) :
    ∀ acc t : Track, mergeLoop from_mp3 acc l = some t →
      t = acc ++ (l.map fun f => (from_mp3 f).getD [] ++ AudioSegment.silent 350).flatten := by
  induction l with
  | nil => intro acc t h; rw [mergeLoop, Option.some.injEq] at h; simp [h.symm]
  | cons f rest ih =>
      intro acc t h
      rw [mergeLoop] at h
      cases hseg : from_mp3 f with
      | none => rw [hseg] at h; exact absurd h (by simp)
      | some seg =>
          rw [hseg] at h
          have := ih _ t h
          rw [this, List.map_cons, List.flatten_cons, hseg]
          simp [List.append_assoc]

/-- A decode failure on any valid file aborts the whole merge. -/
lemma mergeLoop_none_of_fail (from_mp3 : String → Option Track) (l : List String)
    (f : String) (hf : f ∈ l) (hfail : from_mp3 f = none) :
    ∀ acc : Track, mergeLoop from_mp3 acc l = none := by
  induction l with
  | nil => exact absurd hf (List.not_mem_nil f)
  | cons g rest ih =>
      intro acc
      rw [mergeLoop]
      cases hg : from_mp3 g with
      | none => rfl
      | some seg =>
          rcases List.mem_cons.mp hf with h1 | h2
          · subst h1; exact absurd hg (by rw [hfail]; simp)
          · exact ih h2 _

lemma mergeAudio_eq_some (from_mp3 : String → Option Track) (files : List (Option String))
    (h : ∀ f ∈ files.filterMap id, (from_mp3 f).isSome) :
    mergeAudio from_mp3 files =
      some (((files.filterMap id).map fun f => (from_mp3 f).getD [] ++ AudioSegment.silent 350).flatten) := by
  rw [mergeAudio, mergeLoop_eq_some from_mp3 _ _ h]
  rfl

lemma mergeAudio_some_inv (from_mp3 : String → Option Track) (files : List (Option String))
    (t : Track) (h : mergeAudio from_mp3 files = some t) :
    t = ((files.filterMap id).map fun f => (from_mp3 f).getD [] ++ AudioSegment.silent 350).flatten := by
  have := mergeLoop_some_inv from_mp3 (files.filterMap id) AudioSegment.empty t h
  simpa [AudioSegment.empty] using this

/-! ### Helper lemmas about durations and track order -/

lemma Track.duration_append (a b : Track) :
    Track.duration (a ++ b) = Track.duration a + Track.duration b := by
  rw [Track.duration, Track.duration, Track.duration, List.map_append, List.sum_append]

lemma Track.duration_flatten (L : List Track) :
    Track.duration L.flatten = (L.map Track.duration).sum := by
  induction L with
  | nil => rfl
  | cons a t ih => rw [List.flatten_cons, Track.duration_append, ih, List.map_cons, List.sum_cons]

lemma Track.duration_silent (d : Nat) : Track.duration (AudioSegment.silent d) = d := by
  simp [Track.duration, AudioSegment.silent, Clip.dur]

lemma trackIds_append (a b : Track) : trackIds (a ++ b) = trackIds a ++ trackIds b := by
  rw [trackIds, trackIds, trackIds, List.filterMap_append]

lemma trackIds_flatten (L : List Track) :
    trackIds L.flatten = (L.map trackIds).flatten := by
  induction L with
  | nil => rfl
  | cons a t ih => rw [List.flatten_cons, trackIds_append, ih, List.map_cons, List.flatten_cons]

lemma trackIds_silent (d : Nat) : trackIds (AudioSegment.silent d) = [] := rfl

lemma flatten_map_eq_self (g : Nat → List Nat) :
    ∀ l : List Nat, (∀ i ∈ l, g i = [i]) → (l.map g).flatten = l := by
  intro l
  induction l with
  | nil => intro _; rfl
  | cons a t ih =>
      intro h
      rw [List.map_cons, List.flatten_cons, h a (List.mem_cons_self a t),
        ih fun i hi => h i (List.mem_cons_of_mem a hi)]
      rfl

lemma sum_map_add_const {α : Type} (l : List α) (f : α → Nat) (c : Nat) :
    (l.map fun x => f x + c).sum = (l.map f).sum + l.length * c := by
  induction l with
  | nil => simp
  | cons a t ih => simp [ih]; ring

end Podcast

namespace Podcast

/-! ### Claim theorems -/

/-- C1: for every input script, language, backend outcome and every
completion order (`sched`, any permutation of the task indices) of the
concurrently launched synthesis operations, the gathered result
sequence has the same length as the input script and its entry `j` is
exactly turn `j`'s synthesis result; and — when each written segment
file decodes to its turn's audio — the assembled track's segment order
equals the input script order restricted to the present entries. -/
theorem C1_gather_order_preservation
    (ttsOk : String → String → Bool) (from_mp3 : String → Option Track)
    (script : List DialogueTurn) (language : String) (sched : List Nat)
    (dur : Nat → Nat)
    (hperm : sched.Perm (List.range script.length))
    (hdec : ∀ i : Nat, i < script.length →
      from_mp3 (segPath i) = some [Clip.audio i (dur i)]) :
    (runGather (synthTasks ttsOk script language) sched).length = script.length ∧
    (∀ j : Nat, (runGather (synthTasks ttsOk script language) sched)[j]? =
      (script[j]?).map fun line =>
        generate_audio_segment ttsOk line.text (resolveVoice language line.speaker) j) ∧
    (∃ t : Track, create_podcast_audio ttsOk from_mp3 sched script language = some t ∧
      trackIds t = presentIdx (synthTasks ttsOk script language)) := by
  have hlen : (synthTasks ttsOk script language).length = script.length :=
    synthTasks_length ttsOk script language
  have hperm2 : sched.Perm (List.range (synthTasks ttsOk script language).length) := by
    rw [hlen]; exact hperm
  have hg : runGather (synthTasks ttsOk script language) sched = synthTasks ttsOk script language :=
    runGather_perm _ sched hperm2
  refine ⟨by rw [hg]; exact hlen, ?_, ?_⟩
  · intro j
    rw [hg]
    exact synthTasks_getElem? ttsOk script language j
  · have hvalid : (synthTasks ttsOk script language).filterMap id =
        (presentIdxFrom 0 (synthTasks ttsOk script language)).map segPath := by
      apply filterMap_id_eq_presentIdxFrom_map
      intro j s hj
      exact synthTasksFrom_some_eq_segPath ttsOk language script 0 j s hj
    have hbound : ∀ i ∈ presentIdxFrom 0 (synthTasks ttsOk script language),
        i < script.length := by
      intro i hi
      have h2 := presentIdxFrom_mem (synthTasks ttsOk script language) 0 i hi
      omega
    have hsome : ∀ f ∈ (synthTasks ttsOk script language).filterMap id,
        (from_mp3 f).isSome := by
      rw [hvalid]
      intro f hf
      rcases List.mem_map.mp hf with ⟨i, hi, hfi⟩
      rw [← hfi, hdec i (hbound i hi)]
      rfl
    have hmerge := mergeAudio_eq_some from_mp3 (synthTasks ttsOk script language) hsome
    refine ⟨_, by rw [create_podcast_audio, hg]; exact hmerge, ?_⟩
    rw [trackIds_flatten, hvalid, List.map_map, List.map_map]
    unfold presentIdx
    apply flatten_map_eq_self
    intro i hi
    simp only [Function.comp]
    rw [hdec i (hbound i hi)]
    rfl

/-- Witness for C1: two-turn script, all syntheses succeed, completion
schedule reversed (turn 1 finishes before turn 0). -/
theorem C1_gather_order_preservation_witness :
    ([1, 0] : List Nat).Perm (List.range wScript.length) ∧
    (∀ i : Nat, i < wScript.length → wDecode (segPath i) = some [Clip.audio i (wDur i)]) ∧
    ((runGather (synthTasks wTtsAll wScript "English") [1, 0]).length = wScript.length ∧
      (∀ j : Nat, (runGather (synthTasks wTtsAll wScript "English") [1, 0])[j]? =
        (wScript[j]?).map fun line =>
          generate_audio_segment wTtsAll line.text (resolveVoice "English" line.speaker) j) ∧
      (∃ t : Track, create_podcast_audio wTtsAll wDecode [1, 0] wScript "English" = some t ∧
        trackIds t = presentIdx (synthTasks wTtsAll wScript "English"))) :=
  ⟨by decide, by decide,
    C1_gather_order_preservation wTtsAll wDecode wScript "English" [1, 0] wDur
      (by decide) (by decide)⟩

end Podcast

namespace Podcast

/-- C2: for a script in which a non-empty proper subset of the turns
fails synthesis, assembly still succeeds (returns a track, no
exception) and the produced track is exactly, for each successful turn
in original script order, that turn's audio followed by its one 350 ms
gap — a failed turn contributes neither audio nor a silence gap of its
own. -/
theorem C2_partial_failure_tolerance
    (ttsOk : String → String → Bool) (from_mp3 : String → Option Track)
    (script : List DialogueTurn) (language : String) (sched : List Nat)
    (dur : Nat → Nat)
    (hperm : sched.Perm (List.range script.length))
    (hdec : ∀ i : Nat, i < script.length →
      from_mp3 (segPath i) = some [Clip.audio i (dur i)])
    (hfail : ∃ i : Nat, i < script.length ∧
      (synthTasks ttsOk script language).getD i none = none)
    (hsucc : ∃ j : Nat, j < script.length ∧
      (synthTasks ttsOk script language).getD j none ≠ none) :
    create_podcast_audio ttsOk from_mp3 sched script language =
      some (((presentIdx (synthTasks ttsOk script language)).map
        fun i => Clip.audio i (dur i) :: AudioSegment.silent 350).flatten) := by
  have hlen : (synthTasks ttsOk script language).length = script.length :=
    synthTasks_length ttsOk script language
  have hperm2 : sched.Perm (List.range (synthTasks ttsOk script language).length) := by
    rw [hlen]; exact hperm
  have hg : runGather (synthTasks ttsOk script language) sched = synthTasks ttsOk script language :=
    runGather_perm _ sched hperm2
  have hvalid : (synthTasks ttsOk script language).filterMap id =
      (presentIdxFrom 0 (synthTasks ttsOk script language)).map segPath := by
    apply filterMap_id_eq_presentIdxFrom_map
    intro j s hj
    exact synthTasksFrom_some_eq_segPath ttsOk language script 0 j s hj
  have hbound : ∀ i ∈ presentIdxFrom 0 (synthTasks ttsOk script language),
      i < script.length := by
    intro i hi
    have h2 := presentIdxFrom_mem (synthTasks ttsOk script language) 0 i hi
    omega
  have hsome : ∀ f ∈ (synthTasks ttsOk script language).filterMap id,
      (from_mp3 f).isSome := by
    rw [hvalid]
    intro f hf
    rcases List.mem_map.mp hf with ⟨i, hi, hfi⟩
    rw [← hfi, hdec i (hbound i hi)]
    rfl
  rw [create_podcast_audio, hg, mergeAudio_eq_some from_mp3 _ hsome, hvalid, List.map_map]
  unfold presentIdx
  have hpt : ∀ i ∈ presentIdxFrom 0 (synthTasks ttsOk script language),
      ((fun f => (from_mp3 f).getD [] ++ AudioSegment.silent 350) ∘ segPath) i
        = Clip.audio i (dur i) :: AudioSegment.silent 350 := by
    intro i hi
    simp only [Function.comp]
    rw [hdec i (hbound i hi)]
    rfl
  rw [List.map_congr_left hpt]

/-- Witness for C2: two-turn script where exactly the second turn's
synthesis fails; the track is the first turn's audio plus its gap. -/
theorem C2_partial_failure_tolerance_witness :
    ([1, 0] : List Nat).Perm (List.range wScript.length) ∧
    (∀ i : Nat, i < wScript.length → wDecode (segPath i) = some [Clip.audio i (wDur i)]) ∧
    (∃ i : Nat, i < wScript.length ∧
      (synthTasks wTtsFail wScript "English").getD i none = none) ∧
    (∃ j : Nat, j < wScript.length ∧
      (synthTasks wTtsFail wScript "English").getD j none ≠ none) ∧
    create_podcast_audio wTtsFail wDecode [1, 0] wScript "English" =
      some (((presentIdx (synthTasks wTtsFail wScript "English")).map
        fun i => Clip.audio i (wDur i) :: AudioSegment.silent 350).flatten) :=
  ⟨by decide, by decide, ⟨1, by decide⟩, ⟨0, by decide⟩,
    C2_partial_failure_tolerance wTtsFail wDecode wScript "English" [1, 0] wDur
      (by decide) (by decide) ⟨1, by decide⟩ ⟨0, by decide⟩⟩

/-- C3: an empty script, and more generally any run in which every
synthesis task produced an absent result, yields the empty track of
zero duration — no error, for any completion schedule and any
decoder. -/
theorem C3_empty_or_all_fail
    (ttsOk : String → String → Bool) (from_mp3 : String → Option Track)
    (script : List DialogueTurn) (language : String) (sched : List Nat)
    (h : ∀ r ∈ synthTasks ttsOk script language, r = none) :
    create_podcast_audio ttsOk from_mp3 sched script language = some AudioSegment.empty ∧
    Track.duration AudioSegment.empty = 0 := by
  have hnone := runGather_all_none (synthTasks ttsOk script language) sched h
  have hempty : (runGather (synthTasks ttsOk script language) sched).filterMap id = [] :=
    filterMap_id_all_none _ hnone
  constructor
  · rw [create_podcast_audio, mergeAudio, hempty]
    rfl
  · rfl

/-- Witness for C3: all syntheses of the two-turn script fail. -/
theorem C3_empty_or_all_fail_witness :
    (∀ r ∈ synthTasks (fun _ _ => false) wScript "English", r = none) ∧
    (create_podcast_audio (fun _ _ => false) wDecode [1, 0] wScript "English" =
        some AudioSegment.empty ∧
      Track.duration AudioSegment.empty = 0) :=
  ⟨by decide,
    C3_empty_or_all_fail (fun _ _ => false) wDecode wScript "English" [1, 0] (by decide)⟩

/-- C4: whenever the merge step succeeds and produces a track, the
track's total duration is the sum of the decoded durations of the
present segments plus K·350 for K present segments — one 350 ms gap
after every present segment, the trailing one included. -/
theorem C4_silence_gap_arithmetic
    (from_mp3 : String → Option Track) (files : List (Option String)) (t : Track)
    (h : mergeAudio from_mp3 files = some t) :
    Track.duration t =
      ((files.filterMap id).map fun f => Track.duration ((from_mp3 f).getD [])).sum +
        (files.filterMap id).length * 350 := by
  have ht := mergeAudio_some_inv from_mp3 files t h
  rw [ht, Track.duration_flatten, List.map_map]
  have hpt : ∀ f ∈ files.filterMap id,
      (Track.duration ∘ fun f => (from_mp3 f).getD [] ++ AudioSegment.silent 350) f
        = Track.duration ((from_mp3 f).getD []) + 350 := by
    intro f _
    simp only [Function.comp]
    rw [Track.duration_append, Track.duration_silent]
  rw [List.map_congr_left hpt]
  rw [sum_map_add_const (files.filterMap id) (fun f => Track.duration ((from_mp3 f).getD [])) 350]

/-- Witness for C4: two present segments of 800 ms and 600 ms give
800 + 600 + 2·350 = 2100 ms. -/
theorem C4_silence_gap_arithmetic_witness :
    mergeAudio wDecode [some (segPath 0), some (segPath 1)] =
      some [Clip.audio 0 800, Clip.silence 350, Clip.audio 1 600, Clip.silence 350] ∧
    Track.duration [Clip.audio 0 800, Clip.silence 350, Clip.audio 1 600, Clip.silence 350] =
      (([some (segPath 0), some (segPath 1)].filterMap id).map
        fun f => Track.duration ((wDecode f).getD [])).sum +
      ([some (segPath 0), some (segPath 1)].filterMap id).length * 350 :=
  ⟨by decide,
    C4_silence_gap_arithmetic wDecode [some (segPath 0), some (segPath 1)]
      [Clip.audio 0 800, Clip.silence 350, Clip.audio 1 600, Clip.silence 350] (by decide)⟩

end Podcast

namespace Podcast

/-- C5: voice resolution is a total, deterministic, side-effect-free
function of (language, speakerLabel) — it is a pure Lean function, so
repeated resolution of the same inputs is definitionally equal.  For
the three supported languages and any speaker label: a label matched by
substring against the primary-host aliases ("Host 1", "Alex", "Rahul")
resolves to the primary host's voice `voice_1`, every other label
resolves to the secondary host's voice `voice_2`, and the result is
always one of these two voices (never an error). -/
theorem C5_voice_resolution_total
    (language speaker : String)
    (hlang : language = "English" ∨ language = "Hindi" ∨ language = "Hinglish") :
    (resolveVoice language speaker = (hostVoices language).1 ∨
      resolveVoice language speaker = (hostVoices language).2) ∧
    ((strContains speaker "Host 1" || strContains speaker "Alex" ||
        strContains speaker "Rahul") = true →
      resolveVoice language speaker = (hostVoices language).1) ∧
    ((strContains speaker "Host 1" || strContains speaker "Alex" ||
        strContains speaker "Rahul") = false →
      resolveVoice language speaker = (hostVoices language).2) := by
  refine ⟨?_, ?_, ?_⟩
  · rw [resolveVoice]
    by_cases hc : isHost1 speaker = true
    · left; rw [if_pos hc]
    · right; rw [if_neg hc]
  · intro h
    have hc : isHost1 speaker = true := by rw [isHost1]; exact h
    rw [resolveVoice, if_pos hc]
  · intro h
    have hc : isHost1 speaker = false := by rw [isHost1]; exact h
    rw [resolveVoice, if_neg (by rw [hc]; exact Bool.false_ne_true)]

/-- Witness for C5: a Hindi run with the label "Rahul ji", which
contains the alias "Rahul" and resolves to the primary host's voice. -/
theorem C5_voice_resolution_total_witness :
    ("Hindi" = "English" ∨ ("Hindi" : String) = "Hindi" ∨ "Hindi" = "Hinglish") ∧
    ((resolveVoice "Hindi" "Rahul ji" = (hostVoices "Hindi").1 ∨
        resolveVoice "Hindi" "Rahul ji" = (hostVoices "Hindi").2) ∧
      ((strContains "Rahul ji" "Host 1" || strContains "Rahul ji" "Alex" ||
          strContains "Rahul ji" "Rahul") = true →
        resolveVoice "Hindi" "Rahul ji" = (hostVoices "Hindi").1) ∧
      ((strContains "Rahul ji" "Host 1" || strContains "Rahul ji" "Alex" ||
          strContains "Rahul ji" "Rahul") = false →
        resolveVoice "Hindi" "Rahul ji" = (hostVoices "Hindi").2)) :=
  ⟨Or.inr (Or.inl rfl),
    C5_voice_resolution_total "Hindi" "Rahul ji" (Or.inr (Or.inl rfl))⟩

/-- C6: whenever the synthesis backend fails (raises) for a given text
and voice, `generate_audio_segment` returns the absent result `none`
for that index — the exception is caught inside the function (the
embedding is total, so no error escapes), and one failed segment
cannot abort the batch. -/
theorem C6_backend_error_absorbed
    (ttsOk : String → String → Bool) (text voice : String) (index : Nat)
    (herr : ttsOk text voice = false) :
    generate_audio_segment ttsOk text voice index = none := by
  simp only [generate_audio_segment]
  rw [herr]
  rfl

/-- Witness for C6: an always-failing backend yields `none`. -/
theorem C6_backend_error_absorbed_witness :
    ((fun _ _ => false) : String → String → Bool) "Hi there" "en-US-AriaNeural" = false ∧
    generate_audio_segment (fun _ _ => false) "Hi there" "en-US-AriaNeural" 0 = none :=
  ⟨rfl, C6_backend_error_absorbed (fun _ _ => false) "Hi there" "en-US-AriaNeural" 0 rfl⟩

/-- C7 counterexample: the code does NOT treat empty or whitespace-only
text as a no-op.  `generate_audio_segment` has no text check: it issues
the backend request unconditionally, and with a backend that succeeds
on empty text it returns a present result (the written file), not the
absent result the claim requires. -/
theorem C7_counterexample :
    generate_audio_segment (fun _ _ => true) "" "en-US-AriaNeural" 0 = some (segPath 0) ∧
    generate_audio_segment (fun _ _ => true) " " "en-US-AriaNeural" 1 ≠ none := by
  constructor
  · rfl
  · intro h
    exact absurd h (by decide)

/-- C7 amended: the segment synthesizer does not special-case empty or
whitespace-only text; the synthesis request is issued for every text
(the result depends only on the backend's outcome), and the result is
absent exactly when the backend call fails — for empty text just as
for any other text. -/
theorem C7_amended_no_empty_text_check
    (ttsOk : String → String → Bool) (text voice : String) (index : Nat) :
    (generate_audio_segment ttsOk text voice index = none ↔ ttsOk text voice = false) ∧
    (generate_audio_segment ttsOk text voice index ≠ none ↔ ttsOk text voice = true) := by
  simp only [generate_audio_segment]
  cases h : ttsOk text voice <;> simp [h]

/-- C8 counterexample: a corrupt artifact is NOT downgraded to absent.
Two present results, the first of which fails to decode: the merge
aborts with the propagated exception (`none`) instead of producing the
track of the remaining entry that the claim requires. -/
theorem C8_counterexample :
    mergeAudio (fun s => if s = segPath 0 then none else some [Clip.audio 1 600])
      [some (segPath 0), some (segPath 1)] = none ∧
    mergeAudio (fun s => if s = segPath 0 then none else some [Clip.audio 1 600])
      [some (segPath 0), some (segPath 1)] ≠
      some [Clip.audio 1 600, Clip.silence 350] := by
  constructor
  · rfl
  · intro h
    exact absurd h (by decide)

/-- C8 amended: if decoding the artifact of any present entry fails
during assembly, the decoding exception propagates and the whole
assembly aborts (no track is produced); the entry is not downgraded to
absent and the remaining entries are not assembled. -/
theorem C8_amended_decode_failure_aborts
    (from_mp3 : String → Option Track) (files : List (Option String)) (f : String)
    (hf : f ∈ files.filterMap id) (hfail : from_mp3 f = none) :
    mergeAudio from_mp3 files = none := by
  rw [mergeAudio]
  exact mergeLoop_none_of_fail from_mp3 _ f hf hfail _

/-- Witness for C8 amended: the concrete aborting merge above. -/
theorem C8_amended_decode_failure_aborts_witness :
    segPath 0 ∈ ([some (segPath 0), some (segPath 1)] : List (Option String)).filterMap id ∧
    (fun s => if s = segPath 0 then none else some [Clip.audio 1 600]) (segPath 0) =
      (none : Option Track) ∧
    mergeAudio (fun s => if s = segPath 0 then none else some [Clip.audio 1 600])
      [some (segPath 0), some (segPath 1)] = none :=
  ⟨by decide, by decide,
    C8_amended_decode_failure_aborts
      (fun s => if s = segPath 0 then none else some [Clip.audio 1 600])
      [some (segPath 0), some (segPath 1)] (segPath 0) (by decide) (by decide)⟩

end Podcast

namespace Podcast

/-- C9: in every successful pipeline run the gap appended after each
present segment is the fixed 350 ms silence clip: the produced track
is exactly, for each valid file in original order, its decoded audio
followed by `AudioSegment.silent 350`.  The constant 350 is hard-coded
(app.py line 132) and `create_podcast_audio` takes no pacing
parameter, so no caller-supplied input can change the gap. -/
theorem C9_fixed_350ms_gap
    (ttsOk : String → String → Bool) (from_mp3 : String → Option Track)
    (sched : List Nat) (script : List DialogueTurn) (language : String) (t : Track)
    (h : create_podcast_audio ttsOk from_mp3 sched script language = some t) :
    t = (((runGather (synthTasks ttsOk script language) sched).filterMap id).map
      fun f => (from_mp3 f).getD [] ++ AudioSegment.silent 350).flatten := by
  rw [create_podcast_audio] at h
  exact mergeAudio_some_inv from_mp3 _ t h

/-- Witness for C9: the concrete two-turn all-success run; both gaps in
the produced track are the 350 ms silence clip. -/
theorem C9_fixed_350ms_gap_witness :
    create_podcast_audio wTtsAll wDecode [0, 1] wScript "English" =
      some [Clip.audio 0 800, Clip.silence 350, Clip.audio 1 600, Clip.silence 350] ∧
    [Clip.audio 0 800, Clip.silence 350, Clip.audio 1 600, Clip.silence 350] =
      (((runGather (synthTasks wTtsAll wScript "English") [0, 1]).filterMap id).map
        fun f => (wDecode f).getD [] ++ AudioSegment.silent 350).flatten :=
  ⟨by decide,
    C9_fixed_350ms_gap wTtsAll wDecode [0, 1] wScript "English"
      [Clip.audio 0 800, Clip.silence 350, Clip.audio 1 600, Clip.silence 350] (by decide)⟩

/-- C10: speaker classification is case-sensitive raw substring
containment: any label containing one of the primary aliases "Host 1",
"Alex", "Rahul" as a (case-sensitive) substring resolves to the
primary host's voice — in particular "Alexa", which merely contains
"Alex" — while labels differing from an alias only in letter case
("host 1", "HOST 1") resolve to the secondary host's voice. -/
theorem C10_case_sensitive_substring
    (language speaker : String)
    (hsub : ("Host 1".toList <:+: speaker.toList) ∨ ("Alex".toList <:+: speaker.toList) ∨
      ("Rahul".toList <:+: speaker.toList)) :
    resolveVoice language speaker = (hostVoices language).1 ∧
    resolveVoice language "host 1" = (hostVoices language).2 ∧
    resolveVoice language "HOST 1" = (hostVoices language).2 ∧
    ("Alex".toList <:+: "Alexa".toList) := by
  have h1 : isHost1 speaker = true := by
    rw [isHost1]
    simp only [strContains, Bool.or_eq_true, decide_eq_true_eq]
    tauto
  refine ⟨by rw [resolveVoice, if_pos h1], ?_, ?_, by decide⟩
  · have h2 : isHost1 "host 1" = false := by decide
    rw [resolveVoice, if_neg (by rw [h2]; exact Bool.false_ne_true)]
  · have h3 : isHost1 "HOST 1" = false := by decide
    rw [resolveVoice, if_neg (by rw [h3]; exact Bool.false_ne_true)]

/-- Witness for C10: the label "Alexa" contains the alias "Alex" as a
substring and resolves to the primary host's voice in English. -/
theorem C10_case_sensitive_substring_witness :
    (("Host 1".toList <:+: "Alexa".toList) ∨ ("Alex".toList <:+: "Alexa".toList) ∨
      ("Rahul".toList <:+: "Alexa".toList)) ∧
    (resolveVoice "English" "Alexa" = (hostVoices "English").1 ∧
      resolveVoice "English" "host 1" = (hostVoices "English").2 ∧
      resolveVoice "English" "HOST 1" = (hostVoices "English").2 ∧
      ("Alex".toList <:+: "Alexa".toList)) :=
  ⟨Or.inr (Or.inl (by decide)),
    C10_case_sensitive_substring "English" "Alexa" (Or.inr (Or.inl (by decide)))⟩

end Podcast
